import Mathlib

/-!
Verification development for the train-ute crowding-aware transit assignment
engine.  The definitions below are a shallow embedding of the core of
`src/train-ute/src/simulation.rs` (the multi-round assignment loop, the
range-coded occupancy accumulation with per-trip prefix sums, and the
crowding-cost finalization) and of the demand / capacity importers in
`src/train-ute/src/data_import.rs`.

Modelling conventions:
* machine integers (`i32`/`u32`/`u64`) become `Int`/`Nat`; overflow is not
  material to any statement proved here,
* `f32` crowding costs become `Rat` (the claims proved about them are
  placement and monotonicity facts that are preserved by monotone rounding),
* the parallel, atomic accumulation phase is modelled by a sequential fold:
  the updates are commutative additive updates to distinct counters, so the
  final counter values coincide with those of the sequential fold,
* the MLSP query (the external `raptor::mc_raptor_query`) is an abstract
  oracle parameter,
* `Vec` indexing becomes `List.getD`/`List.set` (the source panics on an
  out-of-bounds index; the claims carry the in-bounds hypotheses).
-/

/-! ### Generic list helpers -/

theorem getD_set_eq {α : Type _} (l : List α) (i : Nat) (v d : α) (h : i < l.length) :
    (l.set i v).getD i d = v := by
  induction l generalizing i with
  | nil => simp at h
  | cons a t ih =>
    cases i with
    | zero => rfl
    | succ n => simpa using ih n (by simpa using h)

theorem getD_set_ne {α : Type _} (l : List α) (i j : Nat) (v d : α) (h : i ≠ j) :
    (l.set i v).getD j d = l.getD j d := by
  induction l generalizing i j with
  | nil => simp
  | cons a t ih =>
    cases i with
    | zero =>
      cases j with
      | zero => exact absurd rfl h
      | succ m => rfl
    | succ n =>
      cases j with
      | zero => rfl
      | succ m => simpa using ih n m (by omega)

theorem getD_replicate {α : Type _} (n i : Nat) (x d : α) (h : i < n) :
    (List.replicate n x).getD i d = x := by
  induction n generalizing i with
  | zero => omega
  | succ m ih =>
    cases i with
    | zero => rfl
    | succ k =>
      rw [List.replicate_succ, List.getD_cons_succ]
      exact ih k (by omega)

/-! ### Data model (simulation.rs and the raptor network layout, spec sec. 3) -/

/-- `raptor::network::GlobalTripIndex`: a (route, trip-within-route) pair. -/
structure GlobalTripIndex where
  route_idx : Nat
  trip_order : Nat
deriving DecidableEq, Inhabited, Repr

/-- `raptor::Leg`: one boarding of a trip from a stop-order to a later one. -/
structure Leg where
  trip : GlobalTripIndex
  boarded_stop_order : Nat
  arrival_stop_order : Nat
  boarded_time : Nat
  arrival_time : Nat
deriving DecidableEq, Inhabited, Repr

/-- A stop-time record: arrival and departure seconds since service-day start. -/
structure StopTime where
  arrival_time : Nat
  departure_time : Nat
deriving DecidableEq, Inhabited, Repr

/-- A route of the pre-built network: its trips occupy consecutive blocks of
`num_stops` stop-time entries starting at `stop_times_start` in the network's
flat `stop_times` array (spec sec. 3, flat layout). -/
structure Route where
  num_trips : Nat
  num_stops : Nat
  trip_ids : List String
  stop_times_start : Nat
deriving DecidableEq, Inhabited, Repr

/-- `route.get_trip_range(trip).start`: start of the trip's contiguous range. -/
def Route.trip_range_start (r : Route) (trip : Nat) : Nat :=
  r.stop_times_start + trip * r.num_stops

/-- The read-only network input: routes plus the flat stop-times array. -/
structure Network where
  routes : List Route
  stop_times : List StopTime
deriving DecidableEq, Inhabited

/-- Start of the stop-time range of trip `trip_order` of route `route_idx`. -/
def tripRangeStart (net : Network) (route_idx trip_order : Nat) : Nat :=
  (net.routes.getD route_idx default).trip_range_start trip_order

/-- `raptor::journey::JourneyError`. -/
inductive JourneyError where
  | NoJourneyFound
  | InfiniteLoop
deriving DecidableEq, Inhabited, Repr

/-- `raptor` journey result: legs plus total duration and pathfinding cost. -/
structure Journey where
  legs : List Leg
  duration : Nat
  cost : Rat
deriving DecidableEq, Inhabited

/-- `TripCapacity` (simulation.rs): seated/standing, both `PopulationCount`. -/
structure TripCapacity where
  seated : Int
  standing : Int
deriving DecidableEq, Inhabited, Repr

namespace CrowdingFunc

end CrowdingFunc

/-- `SimulationStep` (simulation.rs): one (departure-time, origin) demand
group with parallel destination and count vectors. -/
structure SimulationStep where
  departure_time : Nat
  origin_stop : Nat
  dest_stops : List Nat
  counts : List Nat
deriving DecidableEq, Inhabited, Repr

/-- `SimulationStep::count`: the total agent count of the step. -/
def SimulationStep.count (step : SimulationStep) : Nat :=
  step.counts.sum

/-- `AgentJourney` (simulation.rs). -/
structure AgentJourney where
  origin_stop : Nat
  origin_trip : GlobalTripIndex
  dest_stop : Nat
  dest_trip : GlobalTripIndex
  count : Nat
  start_time : Nat
  duration : Nat
  crowding_cost : Rat
  num_transfers : Nat
  legs : List Leg
deriving DecidableEq, Inhabited

deriving instance DecidableEq for Except

/-- `AgentJourneyResult` (simulation.rs). -/
structure AgentJourneyResult where
  sim_step_idx : Nat
  journey_idx : Nat
  result : Except JourneyError AgentJourney
deriving DecidableEq, Inhabited

/-- `SimulationRoundResult` (simulation.rs). -/
structure SimulationRoundResult where
  population_count : List Int
  crowding_cost : List Rat
  agent_journeys : List AgentJourneyResult
deriving DecidableEq, Inhabited

/-- `SimulationResult` (simulation.rs). -/
structure SimulationResult where
  population_count : List Int
  round_agent_journeys : List (List AgentJourneyResult)
deriving DecidableEq, Inhabited

/-- The parameters the round driver reads (`SimulationParams` trait):
the crowding cost function, the round count and the requested bag size. -/
structure SimulationParams where
  cost_fn : String → Int → Rat
  num_rounds : Nat
  bag_size : Nat

/-- The MLSP oracle (`raptor::mc_raptor_query`):
origin, departure time, destinations, crowding-cost array, bag size ↦
one journey result per destination. -/
abbrev MLSP : Type :=
  Nat → Nat → List Nat → List Rat → Nat → List (Except JourneyError Journey)

/-! ### The occupancy accumulation phase (simulation.rs lines 306-419) -/

/-- The per-leg range code (simulation.rs lines 384-390): add `count` at the
boarded stop-order of the leg's trip range and subtract it at the arrival
stop-order. -/
def applyLeg (net : Network) (count : Int) (leg : Leg) (buf : List Int) : List Int :=
  let t0 := tripRangeStart net leg.trip.route_idx leg.trip.trip_order
  let bIdx := t0 + leg.boarded_stop_order
  let aIdx := t0 + leg.arrival_stop_order
  let buf1 := buf.set bIdx (buf.getD bIdx 0 + count)
  buf1.set aIdx (buf1.getD aIdx 0 - count)

/-- Processing of one (journey result, count, destination) triple
(simulation.rs lines 349-418): errors and empty-leg journeys become
`NoJourneyFound` records; resolved journeys range-code every leg and emit an
`AgentJourney`. -/
def processJourney (net : Network) (step : SimulationStep) (sim_step_idx journey_idx : Nat)
    (jr : Except JourneyError Journey) (count : Nat) (dest_stop : Nat) (buf : List Int) :
    AgentJourneyResult × List Int :=
  match jr with
  | .error e =>
    ({ sim_step_idx := sim_step_idx, journey_idx := journey_idx, result := .error e }, buf)
  | .ok j =>
    if j.legs.isEmpty then
      ({ sim_step_idx := sim_step_idx, journey_idx := journey_idx,
         result := .error .NoJourneyFound }, buf)
    else
      let buf2 := j.legs.foldl (fun b leg => applyLeg net (count : Int) leg b) buf
      ({ sim_step_idx := sim_step_idx, journey_idx := journey_idx,
         result := .ok {
           origin_stop := step.origin_stop,
           origin_trip := (j.legs.headD default).trip,
           dest_stop := dest_stop,
           dest_trip := (j.legs.getLastD default).trip,
           count := count,
           start_time := step.departure_time,
           duration := j.duration,
           crowding_cost := j.cost,
           num_transfers := j.legs.length - 1,
           legs := j.legs } }, buf2)

/-- The `izip!(0.., journeys, counts, dest_stops)` loop of one step
(simulation.rs line 348): truncates at the shortest list, numbering the
journeys from `journey_idx`. -/
def processJourneys (net : Network) (step : SimulationStep) (sim_step_idx : Nat) :
    Nat → List (Except JourneyError Journey) → List Nat → List Nat → List Int →
    List AgentJourneyResult × List Int
  | jidx, j :: js, c :: cs, d :: ds, buf =>
    let r := processJourney net step sim_step_idx jidx j c d buf
    let rest := processJourneys net step sim_step_idx (jidx + 1) js cs ds r.2
    (r.1 :: rest.1, rest.2)
  | _, _, _, _, buf => ([], buf)

/-- One simulation step (simulation.rs lines 309-419): zero-count steps emit
one `NoJourneyFound` record per destination without querying the MLSP;
otherwise the MLSP is queried once and each of its results is processed. -/
def processStep (net : Network) (mlsp : MLSP) (bag : Nat) (cc : List Rat)
    (buf : List Int) (sim_step_idx : Nat) (step : SimulationStep) :
    List AgentJourneyResult × List Int :=
  if step.count = 0 then
    ((List.range step.dest_stops.length).map (fun journey_idx =>
      { sim_step_idx := sim_step_idx, journey_idx := journey_idx,
        result := .error .NoJourneyFound }), buf)
  else
    let journeys := mlsp step.origin_stop step.departure_time step.dest_stops cc bag
    processJourneys net step sim_step_idx 0 journeys step.counts step.dest_stops buf

/-- All simulation steps in input order (the `par_extend`/`flat_map_iter` of
simulation.rs lines 306-419; rayon preserves input order, and the counter
updates commute, so the sequential fold is the faithful rendering). -/
def processSteps (net : Network) (mlsp : MLSP) (bag : Nat) (cc : List Rat) :
    Nat → List SimulationStep → List Int → List AgentJourneyResult × List Int
  | _, [], buf => ([], buf)
  | i, step :: rest, buf =>
    let r := processStep net mlsp bag cc buf i step
    let r2 := processSteps net mlsp bag cc (i + 1) rest r.2
    (r.1 ++ r2.1, r2.2)

/-! ### Finalization: prefix sums and crowding cost (simulation.rs 421-451) -/

/-- The first `k` iterations of the per-trip finalization loop
(simulation.rs lines 438-449): iteration `i` folds `trip[i]` into
`trip[i + 1]` (the prefix sum) and writes the time-weighted crowding cost at
`i + 1`, using the trip's slices of the global arrays (offset `t0`). -/
def finalizeIter (cf : String → Int → Rat) (st : List StopTime) (trip_id : String)
    (t0 : Nat) (s : List Int × List Rat) : Nat → List Int × List Rat
  | 0 => s
  | k + 1 =>
    let p := finalizeIter cf st trip_id t0 s k
    let v := p.1.getD (t0 + k + 1) 0 + p.1.getD (t0 + k) 0
    let pop := p.1.set (t0 + k + 1) v
    let ct : Nat :=
      (st.getD (t0 + k + 1) default).departure_time - (st.getD (t0 + k) default).arrival_time
    let cost := p.2.set (t0 + k + 1) (cf trip_id v * (ct : Rat))
    (pop, cost)

/-- Finalization of one trip range `[t0, t0 + len)` (simulation.rs lines
437-449): the unweighted cost at stop-order 0, then `len - 1` loop
iterations.  (The source indexes `costs[0]` unconditionally and so panics on
an empty trip range; the network has no empty trips and every claim proved
here assumes `len ≥ 1`.) -/
def finalizeTrip (cf : String → Int → Rat) (st : List StopTime) (trip_id : String)
    (t0 len : Nat) (s : List Int × List Rat) : List Int × List Rat :=
  if len = 0 then s
  else
    let s1 : List Int × List Rat := (s.1, s.2.set t0 (cf trip_id (s.1.getD t0 0)))
    finalizeIter cf st trip_id t0 s1 (len - 1)

/-- The route/trip finalization loops (simulation.rs lines 428-451). -/
def finalizeNetwork (cf : String → Int → Rat) (net : Network)
    (s : List Int × List Rat) : List Int × List Rat :=
  net.routes.foldl (fun s1 route =>
    (List.range route.num_trips).foldl (fun s2 trip =>
      finalizeTrip cf net.stop_times (route.trip_ids.getD trip "")
        (route.trip_range_start trip) route.num_stops s2) s1) s

/-! ### The round and the round driver (simulation.rs 269-514) -/

/-- Bag size selection (simulation.rs line 304): 1 for round 0, else the
requested bag size clamped to `[2, 5]` (`Ord::clamp`). -/
def roundBagSize (round_number : Nat) (bag_size : Nat) : Nat :=
  if round_number = 0 then 1
  else if bag_size < 2 then 2 else if bag_size > 5 then 5 else bag_size

/-- Crowding-cost input selection (simulation.rs lines 280-283): the
previous round's array if there is one, else a zero-filled array of length
`S`. -/
def effectiveCrowdingCost (S : Nat) (crowding_cost : Option (List Rat)) : List Rat :=
  crowding_cost.getD (List.replicate S 0)

/-- `run_simulation_round` (simulation.rs lines 269-458). -/
def run_simulation_round (net : Network) (steps : List SimulationStep)
    (params : SimulationParams) (crowding_cost : Option (List Rat))
    (round_number : Nat) (mlsp : MLSP) : SimulationRoundResult :=
  let S := net.stop_times.length
  let cc := effectiveCrowdingCost S crowding_cost
  let bag := roundBagSize round_number params.bag_size
  let r := processSteps net mlsp bag cc 0 steps (List.replicate S 0)
  let f := finalizeNetwork params.cost_fn net (r.2, List.replicate S (0 : Rat))
  { population_count := f.1, crowding_cost := f.2, agent_journeys := r.1 }

/-- The round loop of `run_simulation` (simulation.rs lines 473-502): each
round receives the crowding cost of the last completed round, if any. -/
def run_simulation_rounds (net : Network) (steps : List SimulationStep)
    (params : SimulationParams) (mlsp : MLSP) : Nat → List SimulationRoundResult
  | 0 => []
  | n + 1 =>
    let prev := run_simulation_rounds net steps params mlsp n
    prev ++ [run_simulation_round net steps params
      (prev.getLast?.map (fun r => r.crowding_cost)) n mlsp]

/-- `run_simulation` (simulation.rs lines 460-514): the final population
count is taken from the last round (`none` models the `unwrap` panic when
`num_rounds = 0`). -/
def run_simulation (net : Network) (steps : List SimulationStep)
    (params : SimulationParams) (mlsp : MLSP) : Option SimulationResult :=
  match (run_simulation_rounds net steps params mlsp params.num_rounds).getLast? with
  | none => none
  | some last => some {
      population_count := last.population_count,
      round_agent_journeys :=
        (run_simulation_rounds net steps params mlsp params.num_rounds).map
          (fun r => r.agent_journeys) }

/-! ### Claim C8: monotonicity of the Linear and Quadratic crowding costs -/

/-- C6. A simulation step whose counts sum to zero emits exactly one
`NoJourneyFound` record per destination (numbered in destination order),
leaves the occupancy accumulator untouched, and never invokes the MLSP
oracle (the step's processing is independent of the oracle). -/
theorem c6_zero_count_step (net : Network) (mlsp : MLSP) (bag : Nat)
    (cc : List Rat) (buf : List Int) (i : Nat) (step : SimulationStep)
    (h : step.count = 0) :
    processStep net mlsp bag cc buf i step =
      ((List.range step.dest_stops.length).map (fun journey_idx =>
        { sim_step_idx := i, journey_idx := journey_idx,
          result := .error .NoJourneyFound }), buf) ∧
    ∀ mlsp2 : MLSP,
      processStep net mlsp2 bag cc buf i step = processStep net mlsp bag cc buf i step := by
  refine ⟨?_, ?_⟩
  · simp [processStep, h]
  · intro mlsp2
    simp [processStep, h]

/-- Witness for C6 at a concrete zero-count step. -/
theorem c6_zero_count_step_witness :
    (SimulationStep.mk 300 0 [2, 4] [0, 0]).count = 0 ∧
    processStep ⟨[], []⟩ (fun _ _ _ _ _ => []) 1 [] [0, 0] 7 ⟨300, 0, [2, 4], [0, 0]⟩ =
      ((List.range 2).map (fun journey_idx =>
        { sim_step_idx := 7, journey_idx := journey_idx,
          result := .error .NoJourneyFound }), [0, 0]) :=
  ⟨by decide, ((c6_zero_count_step ⟨[], []⟩ (fun _ _ _ _ _ => []) 1 [] [0, 0] 7
      ⟨300, 0, [2, 4], [0, 0]⟩ (by decide)).1)⟩

/-! ### Round driver lemmas and claim C4 -/

theorem run_simulation_rounds_succ (net : Network) (steps : List SimulationStep)
    (params : SimulationParams) (mlsp : MLSP) (n : Nat) :
    run_simulation_rounds net steps params mlsp (n + 1) =
      run_simulation_rounds net steps params mlsp n ++
      [run_simulation_round net steps params
        ((run_simulation_rounds net steps params mlsp n).getLast?.map
          (fun r => r.crowding_cost)) n mlsp] := rfl

theorem run_simulation_rounds_length (net : Network) (steps : List SimulationStep)
    (params : SimulationParams) (mlsp : MLSP) (n : Nat) :
    (run_simulation_rounds net steps params mlsp n).length = n := by
  induction n with
  | zero => rfl
  | succ m ih => rw [run_simulation_rounds_succ]; simp [ih]

theorem run_simulation_rounds_getD_stable (net : Network) (steps : List SimulationStep)
    (params : SimulationParams) (mlsp : MLSP) (n k : Nat) (d : SimulationRoundResult)
    (h : k < n) :
    (run_simulation_rounds net steps params mlsp n).getD k d =
    (run_simulation_rounds net steps params mlsp (k + 1)).getD k d := by
  induction n with
  | zero => omega
  | succ m ih =>
    rcases Nat.lt_or_ge k m with hk | hk
    · rw [run_simulation_rounds_succ,
        List.getD_append _ _ _ _ (by rw [run_simulation_rounds_length]; exact hk)]
      exact ih hk
    · have hk2 : k = m := by omega
      subst hk2
      rfl

theorem run_simulation_rounds_getD_top (net : Network) (steps : List SimulationStep)
    (params : SimulationParams) (mlsp : MLSP) (n : Nat) (d : SimulationRoundResult) :
    (run_simulation_rounds net steps params mlsp (n + 1)).getD n d =
      run_simulation_round net steps params
        ((run_simulation_rounds net steps params mlsp n).getLast?.map
          (fun r => r.crowding_cost)) n mlsp := by
  rw [run_simulation_rounds_succ,
    List.getD_append_right _ _ _ _ (by rw [run_simulation_rounds_length])]
  simp [run_simulation_rounds_length]

theorem run_simulation_rounds_getLast (net : Network) (steps : List SimulationStep)
    (params : SimulationParams) (mlsp : MLSP) (n : Nat) :
    (run_simulation_rounds net steps params mlsp (n + 1)).getLast? =
      some ((run_simulation_rounds net steps params mlsp (n + 1)).getD n default) := by
  rw [run_simulation_rounds_succ, List.getLast?_concat, ← run_simulation_rounds_succ,
    run_simulation_rounds_getD_top]

/-- C4. With at least one round configured, round 0 issues its MLSP queries
with bag size 1 and a zero-filled crowding-cost array of length `S`
(= `stop_times.len()`), and every round `k ≥ 1` uses bag size
`clamp(params.get_bag_size(), 2, 5)` and round `k - 1`'s crowding-cost
array. -/
theorem c4_round_query_inputs (net : Network) (steps : List SimulationStep)
    (params : SimulationParams) (mlsp : MLSP) (h : 1 ≤ params.num_rounds) :
    roundBagSize 0 params.bag_size = 1 ∧
    (∀ k, 1 ≤ k → roundBagSize k params.bag_size = min (max params.bag_size 2) 5) ∧
    effectiveCrowdingCost net.stop_times.length none =
      List.replicate net.stop_times.length (0 : Rat) ∧
    (effectiveCrowdingCost net.stop_times.length none).length = net.stop_times.length ∧
    (∀ cc : List Rat, effectiveCrowdingCost net.stop_times.length (some cc) = cc) ∧
    (run_simulation_rounds net steps params mlsp params.num_rounds).getD 0 default =
      run_simulation_round net steps params none 0 mlsp ∧
    (∀ k, 1 ≤ k → k < params.num_rounds →
      (run_simulation_rounds net steps params mlsp params.num_rounds).getD k default =
        run_simulation_round net steps params
          (some (((run_simulation_rounds net steps params mlsp params.num_rounds).getD
            (k - 1) default).crowding_cost)) k mlsp) := by
  refine ⟨rfl, ?_, rfl, by simp [effectiveCrowdingCost], fun cc => rfl, ?_, ?_⟩
  · intro k hk
    simp only [roundBagSize, if_neg (by omega : ¬ k = 0)]
    split_ifs <;> omega
  · rw [run_simulation_rounds_getD_stable _ _ _ _ _ 0 _ h,
      run_simulation_rounds_getD_top]
    rfl
  · intro k hk1 hk2
    obtain ⟨m, rfl⟩ : ∃ m, k = m + 1 := ⟨k - 1, by omega⟩
    rw [run_simulation_rounds_getD_stable _ _ _ _ _ (m + 1) _ hk2,
      run_simulation_rounds_getD_top, run_simulation_rounds_getLast]
    rw [Nat.add_sub_cancel,
      ← run_simulation_rounds_getD_stable net steps params mlsp params.num_rounds m _
        (by omega)]
    rfl

/-- Trivial sample objects used by witnesses. -/
def emptyNet : Network := ⟨[], []⟩

def trivialParams : SimulationParams := ⟨fun _ _ => 0, 1, 3⟩

def trivialMLSP : MLSP := fun _ _ dests _ _ => dests.map (fun _ => .error .NoJourneyFound)

/-- Witness for C4 at a concrete run configuration. -/
theorem c4_round_query_inputs_witness :
    1 ≤ trivialParams.num_rounds ∧
    (roundBagSize 0 trivialParams.bag_size = 1 ∧
    (∀ k, 1 ≤ k → roundBagSize k trivialParams.bag_size =
      min (max trivialParams.bag_size 2) 5) ∧
    effectiveCrowdingCost emptyNet.stop_times.length none =
      List.replicate emptyNet.stop_times.length (0 : Rat) ∧
    (effectiveCrowdingCost emptyNet.stop_times.length none).length =
      emptyNet.stop_times.length ∧
    (∀ cc : List Rat, effectiveCrowdingCost emptyNet.stop_times.length (some cc) = cc) ∧
    (run_simulation_rounds emptyNet [] trivialParams trivialMLSP
        trivialParams.num_rounds).getD 0 default =
      run_simulation_round emptyNet [] trivialParams none 0 trivialMLSP ∧
    (∀ k, 1 ≤ k → k < trivialParams.num_rounds →
      (run_simulation_rounds emptyNet [] trivialParams trivialMLSP
          trivialParams.num_rounds).getD k default =
        run_simulation_round emptyNet [] trivialParams
          (some (((run_simulation_rounds emptyNet [] trivialParams trivialMLSP
            trivialParams.num_rounds).getD (k - 1) default).crowding_cost))
          k trivialMLSP)) :=
  ⟨Nat.le_refl 1, c4_round_query_inputs emptyNet [] trivialParams trivialMLSP (Nat.le_refl 1)⟩

/-! ### Length preservation and claim C10 -/

theorem foldl_preserve {α β : Type _} (P : β → Prop) (f : β → α → β) (l : List α)
    (hf : ∀ b a, P b → P (f b a)) : ∀ b, P b → P (l.foldl f b) := by
  induction l with
  | nil => intro b hb; exact hb
  | cons x xs ih => intro b hb; exact ih _ (hf b x hb)

theorem applyLeg_length (net : Network) (c : Int) (leg : Leg) (buf : List Int) :
    (applyLeg net c leg buf).length = buf.length := by
  simp [applyLeg]

theorem processJourney_length (net : Network) (step : SimulationStep) (i jidx : Nat)
    (jr : Except JourneyError Journey) (c d : Nat) (buf : List Int) :
    ((processJourney net step i jidx jr c d buf).2).length = buf.length := by
  cases jr with
  | error e => rfl
  | ok j =>
    simp only [processJourney]
    split
    · rfl
    · exact foldl_preserve (fun b => b.length = buf.length)
        (fun b leg => applyLeg net (c : Int) leg b) j.legs
        (fun b leg hb => (applyLeg_length net _ leg b).trans hb) buf rfl

theorem processJourneys_length (net : Network) (step : SimulationStep) (i : Nat) :
    ∀ (js : List (Except JourneyError Journey)) (jidx : Nat) (cs ds : List Nat)
      (buf : List Int),
    ((processJourneys net step i jidx js cs ds buf).2).length = buf.length := by
  intro js
  induction js with
  | nil => intro jidx cs ds buf; rfl
  | cons j js ih =>
    intro jidx cs ds buf
    cases cs with
    | nil => rfl
    | cons c cs =>
      cases ds with
      | nil => rfl
      | cons d ds =>
        simp only [processJourneys]
        rw [ih, processJourney_length]

theorem processStep_length (net : Network) (mlsp : MLSP) (bag : Nat) (cc : List Rat)
    (buf : List Int) (i : Nat) (step : SimulationStep) :
    ((processStep net mlsp bag cc buf i step).2).length = buf.length := by
  unfold processStep
  split
  · rfl
  · exact processJourneys_length net step i _ 0 step.counts step.dest_stops buf

theorem processSteps_length (net : Network) (mlsp : MLSP) (bag : Nat) (cc : List Rat) :
    ∀ (steps : List SimulationStep) (i : Nat) (buf : List Int),
    ((processSteps net mlsp bag cc i steps buf).2).length = buf.length := by
  intro steps
  induction steps with
  | nil => intro i buf; rfl
  | cons step rest ih =>
    intro i buf
    simp only [processSteps]
    rw [ih, processStep_length]

theorem finalizeIter_length (cf : String → Int → Rat) (st : List StopTime)
    (tid : String) (t0 : Nat) (s : List Int × List Rat) (k : Nat) :
    ((finalizeIter cf st tid t0 s k).1).length = s.1.length ∧
    ((finalizeIter cf st tid t0 s k).2).length = s.2.length := by
  induction k with
  | zero => exact ⟨rfl, rfl⟩
  | succ m ih => simp [finalizeIter, ih.1, ih.2]

theorem finalizeTrip_length (cf : String → Int → Rat) (st : List StopTime)
    (tid : String) (t0 len : Nat) (s : List Int × List Rat) :
    ((finalizeTrip cf st tid t0 len s).1).length = s.1.length ∧
    ((finalizeTrip cf st tid t0 len s).2).length = s.2.length := by
  unfold finalizeTrip
  split
  · exact ⟨rfl, rfl⟩
  · rw [(finalizeIter_length cf st tid t0 _ (len - 1)).1,
      (finalizeIter_length cf st tid t0 _ (len - 1)).2]
    simp

theorem finalizeRouteFold_length (cf : String → Int → Rat) (st : List StopTime)
    (route : Route) (s : List Int × List Rat) :
    (((List.range route.num_trips).foldl (fun s2 trip =>
        finalizeTrip cf st (route.trip_ids.getD trip "") (route.trip_range_start trip)
          route.num_stops s2) s).1).length = s.1.length ∧
    (((List.range route.num_trips).foldl (fun s2 trip =>
        finalizeTrip cf st (route.trip_ids.getD trip "") (route.trip_range_start trip)
          route.num_stops s2) s).2).length = s.2.length := by
  refine foldl_preserve (fun s2 => s2.1.length = s.1.length ∧ s2.2.length = s.2.length)
    _ (List.range route.num_trips) (fun s2 trip h2 => ?_) s ⟨rfl, rfl⟩
  have h3 := finalizeTrip_length cf st (route.trip_ids.getD trip "")
    (route.trip_range_start trip) route.num_stops s2
  exact ⟨h3.1.trans h2.1, h3.2.trans h2.2⟩

theorem finalizeNetwork_length (cf : String → Int → Rat) (net : Network)
    (s : List Int × List Rat) :
    ((finalizeNetwork cf net s).1).length = s.1.length ∧
    ((finalizeNetwork cf net s).2).length = s.2.length := by
  unfold finalizeNetwork
  refine foldl_preserve
    (fun s2 => s2.1.length = s.1.length ∧ s2.2.length = s.2.length) _ net.routes
    (fun s2 route h2 => ?_) s ⟨rfl, rfl⟩
  have h3 := finalizeRouteFold_length cf net.stop_times route s2
  exact ⟨h3.1.trans h2.1, h3.2.trans h2.2⟩

theorem run_simulation_round_lengths (net : Network) (steps : List SimulationStep)
    (params : SimulationParams) (cc : Option (List Rat)) (rn : Nat) (mlsp : MLSP) :
    (run_simulation_round net steps params cc rn mlsp).population_count.length =
      net.stop_times.length ∧
    (run_simulation_round net steps params cc rn mlsp).crowding_cost.length =
      net.stop_times.length := by
  unfold run_simulation_round
  constructor
  · rw [(finalizeNetwork_length _ _ _).1, processSteps_length]
    simp
  · rw [(finalizeNetwork_length _ _ _).2]
    simp

/-- C10. Every round result carries `population_count` and `crowding_cost`
vectors of length exactly `network.stop_times.len()`, and with at least one
round the final `SimulationResult`'s `population_count` (taken from the last
round) has that same length. -/
theorem c10_vector_lengths (net : Network) (steps : List SimulationStep)
    (params : SimulationParams) (mlsp : MLSP) :
    (∀ n, ∀ r ∈ run_simulation_rounds net steps params mlsp n,
      r.population_count.length = net.stop_times.length ∧
      r.crowding_cost.length = net.stop_times.length) ∧
    (1 ≤ params.num_rounds →
      ∀ res, run_simulation net steps params mlsp = some res →
        res.population_count.length = net.stop_times.length) := by
  have hall : ∀ n, ∀ r ∈ run_simulation_rounds net steps params mlsp n,
      r.population_count.length = net.stop_times.length ∧
      r.crowding_cost.length = net.stop_times.length := by
    intro n
    induction n with
    | zero => intro r hr; simp [run_simulation_rounds] at hr
    | succ m ih =>
      intro r hr
      rw [run_simulation_rounds_succ] at hr
      rcases List.mem_append.mp hr with hr | hr
      · exact ih r hr
      · rw [List.mem_singleton.mp hr]
        exact run_simulation_round_lengths net steps params _ m mlsp
  refine ⟨hall, ?_⟩
  intro h res hres
  obtain ⟨m, hm⟩ : ∃ m, params.num_rounds = m + 1 := ⟨params.num_rounds - 1, by omega⟩
  unfold run_simulation at hres
  rw [hm, run_simulation_rounds_succ, List.getLast?_concat] at hres
  have h2 := Option.some.inj hres
  rw [← h2]
  exact (run_simulation_round_lengths net steps params _ m mlsp).1

/-- Witness for C10 at a concrete run. -/
theorem c10_vector_lengths_witness :
    (∀ n, ∀ r ∈ run_simulation_rounds emptyNet [] trivialParams trivialMLSP n,
      r.population_count.length = emptyNet.stop_times.length ∧
      r.crowding_cost.length = emptyNet.stop_times.length) ∧
    (1 ≤ trivialParams.num_rounds →
      ∀ res, run_simulation emptyNet [] trivialParams trivialMLSP = some res →
        res.population_count.length = emptyNet.stop_times.length) :=
  c10_vector_lengths emptyNet [] trivialParams trivialMLSP

/-! ### Claim C5: totality and ordering of the round's result vector -/

/-- The expected (step index, destination index) pairs, in input order: for
each step (numbered from `i`) one pair per destination, in destination
order.  This is the spec-side description of the result ordering. -/
def expectedIndexPairs : Nat → List SimulationStep → List (Nat × Nat)
  | _, [] => []
  | i, step :: rest =>
    ((List.range step.dest_stops.length).map (fun j => (i, j))) ++
      expectedIndexPairs (i + 1) rest

theorem processJourney_fst_idx (net : Network) (step : SimulationStep) (i jidx : Nat)
    (jr : Except JourneyError Journey) (c d : Nat) (buf : List Int) :
    ((processJourney net step i jidx jr c d buf).1).sim_step_idx = i ∧
    ((processJourney net step i jidx jr c d buf).1).journey_idx = jidx := by
  cases jr with
  | error e => exact ⟨rfl, rfl⟩
  | ok j =>
    simp only [processJourney]
    split
    · exact ⟨rfl, rfl⟩
    · exact ⟨rfl, rfl⟩

theorem processJourneys_map_idx (net : Network) (step : SimulationStep) (i : Nat) :
    ∀ (js : List (Except JourneyError Journey)) (jidx : Nat) (cs ds : List Nat)
      (buf : List Int),
    js.length = cs.length → js.length = ds.length →
    ((processJourneys net step i jidx js cs ds buf).1).map
        (fun r => (r.sim_step_idx, r.journey_idx)) =
      (List.range js.length).map (fun k => (i, jidx + k)) := by
  intro js
  induction js with
  | nil => intro jidx cs ds buf h1 h2; rfl
  | cons j js ih =>
    intro jidx cs ds buf h1 h2
    cases cs with
    | nil => simp at h1
    | cons c cs =>
      cases ds with
      | nil => simp at h2
      | cons d ds =>
        simp only [processJourneys, List.map_cons, List.length_cons]
        rw [(processJourney_fst_idx net step i jidx j c d buf).1,
          (processJourney_fst_idx net step i jidx j c d buf).2]
        rw [ih (jidx + 1) cs ds _ (by simpa using h1) (by simpa using h2)]
        rw [List.range_succ_eq_map, List.map_cons, List.map_map]
        refine congrArg₂ _ (congrArg (Prod.mk i) (by omega)) ?_
        refine List.map_congr_left ?_
        intro k _
        exact congrArg (Prod.mk i) (by omega)

theorem processStep_map_idx (net : Network) (mlsp : MLSP) (bag : Nat) (cc : List Rat)
    (buf : List Int) (i : Nat) (step : SimulationStep)
    (hlen : step.counts.length = step.dest_stops.length)
    (hq : (mlsp step.origin_stop step.departure_time step.dest_stops cc bag).length =
      step.dest_stops.length) :
    ((processStep net mlsp bag cc buf i step).1).map
        (fun r => (r.sim_step_idx, r.journey_idx)) =
      (List.range step.dest_stops.length).map (fun k => (i, k)) := by
  unfold processStep
  split
  · simp
  · rw [processJourneys_map_idx net step i _ 0 step.counts step.dest_stops buf
      (hq.trans hlen.symm) hq, hq]
    simp

theorem processSteps_map_idx (net : Network) (mlsp : MLSP) (bag : Nat) (cc : List Rat)
    (hmlsp : ∀ o d dests cro bag2, (mlsp o d dests cro bag2).length = dests.length) :
    ∀ (steps : List SimulationStep) (i : Nat) (buf : List Int),
    (∀ step ∈ steps, step.counts.length = step.dest_stops.length) →
    ((processSteps net mlsp bag cc i steps buf).1).map
        (fun r => (r.sim_step_idx, r.journey_idx)) =
      expectedIndexPairs i steps := by
  intro steps
  induction steps with
  | nil => intro i buf h; rfl
  | cons step rest ih =>
    intro i buf h
    simp only [processSteps, List.map_append]
    rw [processStep_map_idx net mlsp bag cc buf i step
      (h step (List.mem_cons_self step rest)) (hmlsp _ _ _ _ _)]
    rw [ih (i + 1) _ (fun s hs => h s (List.mem_cons_of_mem step hs))]
    rfl

/-- C5. If the MLSP returns exactly one result per requested destination,
the round's `agent_journeys` vector contains exactly one record per
(step, destination) pair of the input, ordered by step index and, within a
step, by destination index: the projection to (step, destination) indices
is exactly `expectedIndexPairs`. -/
theorem c5_result_ordering (net : Network) (steps : List SimulationStep)
    (params : SimulationParams) (cc : Option (List Rat)) (rn : Nat) (mlsp : MLSP)
    (hsteps : ∀ step ∈ steps, step.counts.length = step.dest_stops.length)
    (hmlsp : ∀ o d dests cro bag, (mlsp o d dests cro bag).length = dests.length) :
    ((run_simulation_round net steps params cc rn mlsp).agent_journeys).map
      (fun r => (r.sim_step_idx, r.journey_idx)) = expectedIndexPairs 0 steps := by
  unfold run_simulation_round
  exact processSteps_map_idx net mlsp _ _ hmlsp steps 0 _ hsteps

/-- Witness for C5 at a concrete round. -/
theorem c5_result_ordering_witness :
    (∀ step ∈ [SimulationStep.mk 60 0 [1, 2] [3, 4]],
      step.counts.length = step.dest_stops.length) ∧
    (∀ o d dests cro bag, (trivialMLSP o d dests cro bag).length = dests.length) ∧
    ((run_simulation_round emptyNet [⟨60, 0, [1, 2], [3, 4]⟩] trivialParams none 0
        trivialMLSP).agent_journeys).map
      (fun r => (r.sim_step_idx, r.journey_idx)) =
      expectedIndexPairs 0 [⟨60, 0, [1, 2], [3, 4]⟩] :=
  ⟨by decide, fun o d dests cro bag => by simp [trivialMLSP],
    c5_result_ordering emptyNet [⟨60, 0, [1, 2], [3, 4]⟩] trivialParams none 0
      trivialMLSP (by decide) (fun o d dests cro bag => by simp [trivialMLSP])⟩

/-! ### Pointwise characterization of the range code and the prefix sums -/

/-- Global buffer index written by the `fetch_add` of a leg. -/
def legBoardIdx (net : Network) (leg : Leg) : Nat :=
  tripRangeStart net leg.trip.route_idx leg.trip.trip_order + leg.boarded_stop_order

/-- Global buffer index written by the `fetch_sub` of a leg. -/
def legAlightIdx (net : Network) (leg : Leg) : Nat :=
  tripRangeStart net leg.trip.route_idx leg.trip.trip_order + leg.arrival_stop_order

/-- Sum of the buffer entries at indices `lo, lo+1, ..., lo+i` — the value a
prefix sum starting at `lo` produces at offset `i`. -/
def rangeSum (buf : List Int) (lo : Nat) : Nat → Int
  | 0 => buf.getD lo 0
  | i + 1 => rangeSum buf lo i + buf.getD (lo + i + 1) 0

theorem applyLeg_getD (net : Network) (c : Int) (leg : Leg) (buf : List Int) (j : Nat)
    (hb : legBoardIdx net leg < buf.length) (ha : legAlightIdx net leg < buf.length)
    (hne : legBoardIdx net leg ≠ legAlightIdx net leg) :
    (applyLeg net c leg buf).getD j 0 =
      buf.getD j 0 + (if j = legBoardIdx net leg then c else 0)
        - (if j = legAlightIdx net leg then c else 0) := by
  show ((buf.set (legBoardIdx net leg) (buf.getD (legBoardIdx net leg) 0 + c)).set
      (legAlightIdx net leg)
      ((buf.set (legBoardIdx net leg) (buf.getD (legBoardIdx net leg) 0 + c)).getD
        (legAlightIdx net leg) 0 - c)).getD j 0 = _
  rw [getD_set_ne _ _ _ _ _ hne]
  by_cases hj1 : j = legAlightIdx net leg
  · subst hj1
    rw [getD_set_eq _ _ _ _ (by simpa using ha)]
    rw [if_neg (fun hh => hne hh.symm), if_pos rfl]
    ring
  · rw [getD_set_ne _ _ _ _ _ (fun hh => hj1 hh.symm)]
    by_cases hj2 : j = legBoardIdx net leg
    · subst hj2
      rw [getD_set_eq _ _ _ _ hb, if_pos rfl, if_neg hj1]
      ring
    · rw [getD_set_ne _ _ _ _ _ (fun hh => hj2 hh.symm), if_neg hj2, if_neg hj1]
      ring

theorem rangeSum_applyLeg (net : Network) (c : Int) (leg : Leg) (buf : List Int)
    (lo : Nat)
    (hb : legBoardIdx net leg < buf.length) (ha : legAlightIdx net leg < buf.length)
    (hne : legBoardIdx net leg ≠ legAlightIdx net leg) :
    ∀ i, rangeSum (applyLeg net c leg buf) lo i =
      rangeSum buf lo i
        + (if lo ≤ legBoardIdx net leg ∧ legBoardIdx net leg ≤ lo + i then c else 0)
        - (if lo ≤ legAlightIdx net leg ∧ legAlightIdx net leg ≤ lo + i then c else 0) := by
  intro i
  induction i with
  | zero =>
    simp only [rangeSum]
    rw [applyLeg_getD net c leg buf lo hb ha hne]
    split_ifs <;> omega
  | succ m ih =>
    simp only [rangeSum]
    rw [ih, applyLeg_getD net c leg buf (lo + m + 1) hb ha hne]
    split_ifs <;> omega

theorem getD_replicate_zero (S j : Nat) : (List.replicate S (0 : Int)).getD j 0 = 0 := by
  rcases Nat.lt_or_ge j S with h | h
  · exact getD_replicate S j 0 0 h
  · exact List.getD_eq_default _ _ (by simpa using h)

theorem rangeSum_replicate_zero (S lo : Nat) :
    ∀ i, rangeSum (List.replicate S (0 : Int)) lo i = 0 := by
  intro i
  induction i with
  | zero => exact getD_replicate_zero S lo
  | succ m ih =>
    simp only [rangeSum]
    rw [ih, getD_replicate_zero]
    omega

theorem finalizeIter_pop_getD (cf : String → Int → Rat) (st : List StopTime)
    (tid : String) (t0 : Nat) (s : List Int × List Rat) :
    ∀ (k j : Nat), t0 + k < s.1.length →
    ((finalizeIter cf st tid t0 s k).1).getD j 0 =
      if t0 < j ∧ j ≤ t0 + k then rangeSum s.1 t0 (j - t0) else s.1.getD j 0 := by
  intro k
  induction k with
  | zero =>
    intro j hlen
    rw [if_neg (by omega)]
    rfl
  | succ m ih =>
    intro j hlen
    simp only [finalizeIter]
    have hplen : ((finalizeIter cf st tid t0 s m).1).length = s.1.length :=
      (finalizeIter_length cf st tid t0 s m).1
    by_cases hj : j = t0 + m + 1
    · subst hj
      rw [getD_set_eq _ _ _ _ (by rw [hplen]; omega)]
      rw [ih (t0 + m + 1) (by omega), ih (t0 + m) (by omega)]
      have hsub : t0 + m + 1 - t0 = m + 1 := by omega
      have hsub2 : t0 + m - t0 = m := by omega
      rw [hsub, hsub2]
      rcases Nat.eq_zero_or_pos m with hm | hm
      · subst hm
        simp only [rangeSum, Nat.add_zero]
        split_ifs <;> omega
      · simp only [rangeSum]
        split_ifs <;> omega
    · rw [getD_set_ne _ _ _ _ _ (fun hh => hj hh.symm)]
      rw [ih j (by omega)]
      by_cases hcond : t0 < j ∧ j ≤ t0 + m
      · rw [if_pos hcond, if_pos (by omega)]
      · rw [if_neg hcond, if_neg (by omega)]

theorem finalizeIter_pop_getD_outside (cf : String → Int → Rat) (st : List StopTime)
    (tid : String) (t0 : Nat) (s : List Int × List Rat) :
    ∀ (k j : Nat), j ≤ t0 ∨ t0 + k < j →
    ((finalizeIter cf st tid t0 s k).1).getD j 0 = s.1.getD j 0 := by
  intro k
  induction k with
  | zero => intro j h; rfl
  | succ m ih =>
    intro j h
    simp only [finalizeIter]
    rw [getD_set_ne _ _ _ _ _ (by omega)]
    exact ih j (by omega)

theorem finalizeTrip_pop_getD_in (cf : String → Int → Rat) (st : List StopTime)
    (tid : String) (t0 len : Nat) (s : List Int × List Rat)
    (hb : t0 + len ≤ s.1.length) :
    ∀ i, i < len →
    ((finalizeTrip cf st tid t0 len s).1).getD (t0 + i) 0 = rangeSum s.1 t0 i := by
  intro i hi
  unfold finalizeTrip
  rw [if_neg (by omega)]
  rw [finalizeIter_pop_getD cf st tid t0
    (s.1, s.2.set t0 (cf tid (s.1.getD t0 0))) (len - 1) (t0 + i) (by simp; omega)]
  by_cases hi0 : i = 0
  · subst hi0
    rw [if_neg (by omega)]
    simp [rangeSum]
  · rw [if_pos (by omega)]
    have hsub : t0 + i - t0 = i := by omega
    rw [hsub]

theorem finalizeTrip_pop_getD_outside (cf : String → Int → Rat) (st : List StopTime)
    (tid : String) (t0 len : Nat) (s : List Int × List Rat) (j : Nat)
    (h : j ≤ t0 ∨ t0 + len ≤ j) :
    ((finalizeTrip cf st tid t0 len s).1).getD j 0 = s.1.getD j 0 := by
  unfold finalizeTrip
  split
  · rfl
  · rename_i hlen0
    exact finalizeIter_pop_getD_outside cf st tid t0 _ (len - 1) j (by omega)

theorem finalizeIter_cost_getD_outside (cf : String → Int → Rat) (st : List StopTime)
    (tid : String) (t0 : Nat) (s : List Int × List Rat) :
    ∀ (k j : Nat), j ≤ t0 ∨ t0 + k < j →
    ((finalizeIter cf st tid t0 s k).2).getD j 0 = s.2.getD j 0 := by
  intro k
  induction k with
  | zero => intro j h; rfl
  | succ m ih =>
    intro j h
    simp only [finalizeIter]
    rw [getD_set_ne _ _ _ _ _ (by omega)]
    exact ih j (by omega)

theorem finalizeIter_cost_getD (cf : String → Int → Rat) (st : List StopTime)
    (tid : String) (t0 : Nat) (s : List Int × List Rat) :
    ∀ (k j : Nat), t0 + k < s.1.length → t0 + k < s.2.length →
    ((finalizeIter cf st tid t0 s k).2).getD j 0 =
      if t0 < j ∧ j ≤ t0 + k then
        cf tid (rangeSum s.1 t0 (j - t0)) *
          (((st.getD j default).departure_time -
            (st.getD (j - 1) default).arrival_time : Nat) : Rat)
      else s.2.getD j 0 := by
  intro k
  induction k with
  | zero =>
    intro j h1 h2
    rw [if_neg (by omega)]
    rfl
  | succ m ih =>
    intro j h1 h2
    simp only [finalizeIter]
    have hplen2 : ((finalizeIter cf st tid t0 s m).2).length = s.2.length :=
      (finalizeIter_length cf st tid t0 s m).2
    by_cases hj : j = t0 + m + 1
    · subst hj
      rw [getD_set_eq _ _ _ _ (by rw [hplen2]; omega)]
      rw [if_pos (by omega)]
      rw [finalizeIter_pop_getD cf st tid t0 s m (t0 + m + 1) (by omega),
        finalizeIter_pop_getD cf st tid t0 s m (t0 + m) (by omega)]
      have hsub : t0 + m + 1 - t0 = m + 1 := by omega
      have hsub2 : t0 + m - t0 = m := by omega
      have hsub3 : t0 + m + 1 - 1 = t0 + m := by omega
      rw [hsub, hsub2, hsub3]
      rcases Nat.eq_zero_or_pos m with hm | hm
      · subst hm
        simp only [rangeSum, Nat.add_zero]
        split_ifs <;>
          first
            | omega
            | exact congrArg₂ (fun a b => a * b) (congrArg (cf tid) (by omega)) rfl
      · simp only [rangeSum]
        split_ifs <;>
          first
            | omega
            | exact congrArg₂ (fun a b => a * b) (congrArg (cf tid) (by omega)) rfl
    · rw [getD_set_ne _ _ _ _ _ (fun hh => hj hh.symm)]
      rw [ih j (by omega) (by omega)]
      by_cases hcond : t0 < j ∧ j ≤ t0 + m
      · rw [if_pos hcond, if_pos (by omega)]
      · rw [if_neg hcond, if_neg (by omega)]

theorem finalizeTrip_cost_getD (cf : String → Int → Rat) (st : List StopTime)
    (tid : String) (t0 len : Nat) (s : List Int × List Rat)
    (h1 : 1 ≤ len) (hb1 : t0 + len ≤ s.1.length) (hb2 : t0 + len ≤ s.2.length)
    (j : Nat) :
    ((finalizeTrip cf st tid t0 len s).2).getD j 0 =
      if j = t0 then cf tid (s.1.getD t0 0)
      else if t0 < j ∧ j < t0 + len then
        cf tid (rangeSum s.1 t0 (j - t0)) *
          (((st.getD j default).departure_time -
            (st.getD (j - 1) default).arrival_time : Nat) : Rat)
      else s.2.getD j 0 := by
  unfold finalizeTrip
  rw [if_neg (by omega)]
  by_cases hj0 : j = t0
  · subst hj0
    rw [finalizeIter_cost_getD_outside cf st tid j _ (len - 1) j (Or.inl (Nat.le_refl j))]
    rw [if_pos rfl]
    exact getD_set_eq _ _ _ _ (by omega)
  · by_cases hj1 : t0 < j ∧ j < t0 + len
    · rw [if_neg hj0, if_pos hj1]
      rw [finalizeIter_cost_getD cf st tid t0 (s.1, s.2.set t0 (cf tid (s.1.getD t0 0)))
        (len - 1) j (by simp; omega) (by simp; omega)]
      rw [if_pos (by omega)]
    · rw [if_neg hj0, if_neg hj1]
      rw [finalizeIter_cost_getD_outside cf st tid t0 _ (len - 1) j (by omega)]
      exact getD_set_ne _ _ _ _ _ (fun hh => hj0 hh.symm)

theorem natCast_sub_eq_max (d a : Nat) :
    ((d - a : Nat) : Rat) = max 0 ((d : Rat) - (a : Rat)) := by
  rcases Nat.le_total a d with h | h
  · rw [Nat.cast_sub h, max_eq_right (sub_nonneg.mpr (by exact_mod_cast h))]
  · rw [Nat.sub_eq_zero_of_le h, max_eq_left (sub_nonpos.mpr (by exact_mod_cast h))]
    rfl

/-! ### Claim C3: per-segment crowding-cost placement -/

/-- C3. For a trip range `[t0, t0 + len)`, finalization writes the
unweighted cost `f(trip, buf[t0])` at stop-order 0 and, at every later
stop-order `i + 1`, the cost `f(trip, buf[t0+i+1])` of the post-prefix-sum
occupancy multiplied by the clamped connection time
`max(0, departure[t0+i+1] - arrival[t0+i])` (the truncated `Nat`
subtraction of the code equals that clamp, so the weight and hence the
cost of a nonnegative `f` stay nonnegative). -/
theorem c3_crowding_cost_placement (cf : String → Int → Rat) (st : List StopTime)
    (tid : String) (t0 len : Nat) (pop : List Int) (cost : List Rat)
    (h1 : 1 ≤ len) (h2 : t0 + len ≤ pop.length) (h3 : t0 + len ≤ cost.length) :
    ((finalizeTrip cf st tid t0 len (pop, cost)).2).getD t0 0 =
      cf tid (((finalizeTrip cf st tid t0 len (pop, cost)).1).getD t0 0) ∧
    (∀ i, i + 1 < len →
      ((finalizeTrip cf st tid t0 len (pop, cost)).2).getD (t0 + i + 1) 0 =
        cf tid (((finalizeTrip cf st tid t0 len (pop, cost)).1).getD (t0 + i + 1) 0) *
          (((st.getD (t0 + i + 1) default).departure_time -
            (st.getD (t0 + i) default).arrival_time : Nat) : Rat)) ∧
    (∀ d a : Nat, ((d - a : Nat) : Rat) = max 0 ((d : Rat) - (a : Rat))) := by
  refine ⟨?_, ?_, natCast_sub_eq_max⟩
  · rw [finalizeTrip_cost_getD cf st tid t0 len (pop, cost) h1 h2 h3 t0, if_pos rfl]
    rw [finalizeTrip_pop_getD_outside cf st tid t0 len (pop, cost) t0
      (Or.inl (Nat.le_refl t0))]
  · intro i hi
    rw [finalizeTrip_cost_getD cf st tid t0 len (pop, cost) h1 h2 h3 (t0 + i + 1)]
    rw [if_neg (by omega), if_pos (by omega)]
    have he : (t0 + i + 1 : Nat) = t0 + (i + 1) := by omega
    rw [he, finalizeTrip_pop_getD_in cf st tid t0 len (pop, cost) h2 (i + 1) hi]
    have hs : t0 + (i + 1) - t0 = i + 1 := by omega
    have hs2 : t0 + (i + 1) - 1 = t0 + i := by omega
    rw [hs, hs2]

/-- Concrete objects for the C3 witness. -/
def c3wCf : String → Int → Rat := fun _ x => (x : Rat)

def c3wSt : List StopTime := [⟨0, 10⟩, ⟨20, 30⟩, ⟨40, 50⟩]

def c3wF : List Int × List Rat := finalizeTrip c3wCf c3wSt "t" 0 3 ([5, 2, 4], [0, 0, 0])

/-- Witness for C3 at a concrete trip range. -/
theorem c3_crowding_cost_placement_witness :
    (1 : Nat) ≤ 3 ∧ (0 : Nat) + 3 ≤ ([5, 2, 4] : List Int).length ∧
    (0 : Nat) + 3 ≤ ([0, 0, 0] : List Rat).length ∧
    (c3wF.2.getD 0 0 = c3wCf "t" (c3wF.1.getD 0 0) ∧
     (∀ i, i + 1 < 3 → c3wF.2.getD (0 + i + 1) 0 =
        c3wCf "t" (c3wF.1.getD (0 + i + 1) 0) *
          (((c3wSt.getD (0 + i + 1) default).departure_time -
            (c3wSt.getD (0 + i) default).arrival_time : Nat) : Rat)) ∧
     (∀ d a : Nat, ((d - a : Nat) : Rat) = max 0 ((d : Rat) - (a : Rat)))) :=
  ⟨by decide, by decide, by decide,
    c3_crowding_cost_placement c3wCf c3wSt "t" 0 3 [5, 2, 4] [0, 0, 0]
      (by decide) (by decide) (by decide)⟩

/-! ### Claim C1: range code and round trip of a single resolved leg -/

/-- C1. A resolved leg with boarded stop-order `b`, arrival stop-order `a`
(`b < a < len`) and count `c` on trip range `[t0, t0 + len)` adds `c` at
`buf[t0+b]`, subtracts `c` at `buf[t0+a]`, and leaves every other entry of
the range unchanged; when it is the only resolved leg of the round, the
per-trip prefix sum leaves `c` at `buf[t0+i]` for `i ∈ [b, a)` and `0` at
every other index of the range. -/
theorem c1_single_leg_range_code (net : Network) (leg : Leg) (c : Int) (S len : Nat)
    (cf : String → Int → Rat) (st : List StopTime) (tid : String) (cost0 : List Rat)
    (hba : leg.boarded_stop_order < leg.arrival_stop_order)
    (ha : leg.arrival_stop_order < len)
    (hlen : tripRangeStart net leg.trip.route_idx leg.trip.trip_order + len ≤ S) :
    (∀ buf : List Int, buf.length = S →
      ((applyLeg net c leg buf).getD (legBoardIdx net leg) 0 =
        buf.getD (legBoardIdx net leg) 0 + c ∧
       (applyLeg net c leg buf).getD (legAlightIdx net leg) 0 =
        buf.getD (legAlightIdx net leg) 0 - c ∧
       ∀ i, i < len → i ≠ leg.boarded_stop_order → i ≠ leg.arrival_stop_order →
        (applyLeg net c leg buf).getD
          (tripRangeStart net leg.trip.route_idx leg.trip.trip_order + i) 0 =
        buf.getD (tripRangeStart net leg.trip.route_idx leg.trip.trip_order + i) 0)) ∧
    (∀ i, i < len →
      ((finalizeTrip cf st tid (tripRangeStart net leg.trip.route_idx leg.trip.trip_order)
          len (applyLeg net c leg (List.replicate S 0), cost0)).1).getD
        (tripRangeStart net leg.trip.route_idx leg.trip.trip_order + i) 0 =
      if leg.boarded_stop_order ≤ i ∧ i < leg.arrival_stop_order then c else 0) := by
  have hbS : ∀ buf : List Int, buf.length = S → legBoardIdx net leg < buf.length := by
    intro buf hb
    rw [hb]
    unfold legBoardIdx
    omega
  have haS : ∀ buf : List Int, buf.length = S → legAlightIdx net leg < buf.length := by
    intro buf hb
    rw [hb]
    unfold legAlightIdx
    omega
  have hne : legBoardIdx net leg ≠ legAlightIdx net leg := by
    unfold legBoardIdx legAlightIdx
    omega
  constructor
  · intro buf hblen
    refine ⟨?_, ?_, ?_⟩
    · rw [applyLeg_getD net c leg buf _ (hbS buf hblen) (haS buf hblen) hne,
        if_pos rfl, if_neg hne]
      ring
    · rw [applyLeg_getD net c leg buf _ (hbS buf hblen) (haS buf hblen) hne,
        if_neg (fun hh => hne hh.symm), if_pos rfl]
      ring
    · intro i hi hib hia
      rw [applyLeg_getD net c leg buf _ (hbS buf hblen) (haS buf hblen) hne]
      rw [if_neg (by unfold legBoardIdx; omega), if_neg (by unfold legAlightIdx; omega)]
      ring
  · intro i hi
    have hlen0 : (applyLeg net c leg (List.replicate S 0)).length = S := by
      rw [applyLeg_length]
      simp
    rw [finalizeTrip_pop_getD_in cf st tid _ len
      (applyLeg net c leg (List.replicate S 0), cost0)
      (by simp only [hlen0]; exact hlen) i hi]
    rw [rangeSum_applyLeg net c leg (List.replicate S 0) _
      (hbS (List.replicate S 0) (by simp)) (haS (List.replicate S 0) (by simp)) hne i]
    rw [rangeSum_replicate_zero S _ i]
    unfold legBoardIdx legAlightIdx
    split_ifs <;> omega

/-! ### Network wellformedness: the contiguous flat trip-range layout -/

/-- Number of stop-time entries of a route's block. -/
def Route.block_len (r : Route) : Nat := r.num_trips * r.num_stops

/-- The contiguous flat layout (spec sec. 3): each route's block of trips
starts where the previous route's block ends. -/
def RoutesLayout : Nat → List Route → Prop
  | _, [] => True
  | off, r :: rs => r.stop_times_start = off ∧ RoutesLayout (off + r.block_len) rs

/-- Network wellformedness: contiguous layout from offset 0, and a
stop-times array of exactly the summed block length. -/
def Network.WF (net : Network) : Prop :=
  RoutesLayout 0 net.routes ∧
  net.stop_times.length = (net.routes.map Route.block_len).sum

/-- Validity of a (route, trip-order) reference into the network. -/
def ValidTrip (net : Network) (route_idx trip_order : Nat) : Prop :=
  route_idx < net.routes.length ∧
  trip_order < (net.routes.getD route_idx default).num_trips

/-- The MLSP contract on a returned leg: valid trip reference and an
increasing, in-range stop-order pair. -/
def LegValid (net : Network) (leg : Leg) : Prop :=
  ValidTrip net leg.trip.route_idx leg.trip.trip_order ∧
  leg.boarded_stop_order < leg.arrival_stop_order ∧
  leg.arrival_stop_order < (net.routes.getD leg.trip.route_idx default).num_stops

theorem routesLayout_getD_bounds :
    ∀ (rs : List Route) (off : Nat), RoutesLayout off rs →
    ∀ k, k < rs.length →
      off ≤ (rs.getD k default).stop_times_start ∧
      (rs.getD k default).stop_times_start + (rs.getD k default).block_len ≤
        off + (rs.map Route.block_len).sum := by
  intro rs
  induction rs with
  | nil => intro off h k hk; simp at hk
  | cons r rest ih =>
    intro off h k hk
    rcases h with ⟨h0, hrest⟩
    cases k with
    | zero =>
      simp only [List.getD_cons_zero, List.map_cons, List.sum_cons]
      omega
    | succ m =>
      simp only [List.getD_cons_succ, List.map_cons, List.sum_cons]
      have := ih (off + r.block_len) hrest m (by simpa using hk)
      omega

theorem routesLayout_ordered :
    ∀ (rs : List Route) (off : Nat), RoutesLayout off rs →
    ∀ k k2, k < k2 → k2 < rs.length →
      (rs.getD k default).stop_times_start + (rs.getD k default).block_len ≤
        (rs.getD k2 default).stop_times_start := by
  intro rs
  induction rs with
  | nil => intro off h k k2 hk hk2; simp at hk2
  | cons r rest ih =>
    intro off h k k2 hk hk2
    rcases h with ⟨h0, hrest⟩
    obtain ⟨m, rfl⟩ : ∃ m, k2 = m + 1 := ⟨k2 - 1, by omega⟩
    cases k with
    | zero =>
      simp only [List.getD_cons_zero, List.getD_cons_succ]
      have := (routesLayout_getD_bounds rest (off + r.block_len) hrest m
        (by simpa using hk2)).1
      omega
    | succ n =>
      simp only [List.getD_cons_succ]
      exact ih (off + r.block_len) hrest n m (by omega) (by simpa using hk2)

theorem tripRange_in_bounds (net : Network) (hwf : net.WF) (r t : Nat)
    (hv : ValidTrip net r t) :
    tripRangeStart net r t + (net.routes.getD r default).num_stops ≤
      net.stop_times.length := by
  rcases hwf with ⟨hl, hs⟩
  rcases hv with ⟨hr, ht⟩
  have hb := routesLayout_getD_bounds net.routes 0 hl r hr
  have hmul : (t + 1) * (net.routes.getD r default).num_stops =
      t * (net.routes.getD r default).num_stops +
      (net.routes.getD r default).num_stops := by ring
  have hblock : (t + 1) * (net.routes.getD r default).num_stops ≤
      (net.routes.getD r default).block_len :=
    Nat.mul_le_mul_right _ (by omega)
  unfold tripRangeStart Route.trip_range_start
  omega

theorem tripRange_disjoint (net : Network) (hwf : net.WF) (r t r2 t2 : Nat)
    (hv : ValidTrip net r t) (hv2 : ValidTrip net r2 t2)
    (hne : ¬(r = r2 ∧ t = t2)) :
    tripRangeStart net r t + (net.routes.getD r default).num_stops ≤
      tripRangeStart net r2 t2 ∨
    tripRangeStart net r2 t2 + (net.routes.getD r2 default).num_stops ≤
      tripRangeStart net r t := by
  rcases hwf with ⟨hl, hs⟩
  obtain ⟨hr1, ht1⟩ := hv
  obtain ⟨hr2, ht2⟩ := hv2
  unfold tripRangeStart Route.trip_range_start
  rcases Nat.lt_trichotomy r r2 with hr | hr | hr
  · left
    have hord := routesLayout_ordered net.routes 0 hl r r2 hr hr2
    have hmul : (t + 1) * (net.routes.getD r default).num_stops =
        t * (net.routes.getD r default).num_stops +
        (net.routes.getD r default).num_stops := by ring
    have hblock : (t + 1) * (net.routes.getD r default).num_stops ≤
        (net.routes.getD r default).block_len :=
      Nat.mul_le_mul_right _ (by omega : t + 1 ≤ (net.routes.getD r default).num_trips)
    omega
  · subst hr
    have htne : t ≠ t2 := fun hh => hne ⟨rfl, hh⟩
    rcases Nat.lt_or_ge t t2 with htt | htt
    · left
      have : (t + 1) * (net.routes.getD r default).num_stops ≤
          t2 * (net.routes.getD r default).num_stops :=
        Nat.mul_le_mul_right _ (by omega)
      have hmul : (t + 1) * (net.routes.getD r default).num_stops =
          t * (net.routes.getD r default).num_stops +
          (net.routes.getD r default).num_stops := by ring
      omega
    · right
      have htt2 : t2 < t := by omega
      have : (t2 + 1) * (net.routes.getD r default).num_stops ≤
          t * (net.routes.getD r default).num_stops :=
        Nat.mul_le_mul_right _ (by omega)
      have hmul : (t2 + 1) * (net.routes.getD r default).num_stops =
          t2 * (net.routes.getD r default).num_stops +
          (net.routes.getD r default).num_stops := by ring
      omega
  · right
    have hord := routesLayout_ordered net.routes 0 hl r2 r hr hr1
    have hmul : (t2 + 1) * (net.routes.getD r2 default).num_stops =
        t2 * (net.routes.getD r2 default).num_stops +
        (net.routes.getD r2 default).num_stops := by ring
    have hblock : (t2 + 1) * (net.routes.getD r2 default).num_stops ≤
        (net.routes.getD r2 default).block_len :=
      Nat.mul_le_mul_right _ (by omega : t2 + 1 ≤ (net.routes.getD r2 default).num_trips)
    omega

/-! ### The finalization loops as a fold over trip entries -/

/-- The (trip_id, range start, range length) entries of a route, in
finalization order. -/
def routeTrips (r : Route) : List (String × Nat × Nat) :=
  (List.range r.num_trips).map (fun trip =>
    (r.trip_ids.getD trip "", r.trip_range_start trip, r.num_stops))

/-- All trip entries of the network, in finalization order. -/
def netTrips (net : Network) : List (String × Nat × Nat) :=
  net.routes.flatMap routeTrips

/-- Structural recursion form of the finalization fold. -/
def finalizeEntries (cf : String → Int → Rat) (st : List StopTime) :
    List (String × Nat × Nat) → List Int × List Rat → List Int × List Rat
  | [], s => s
  | e :: l, s => finalizeEntries cf st l (finalizeTrip cf st e.1 e.2.1 e.2.2 s)

theorem finalizeEntries_eq_foldl (cf : String → Int → Rat) (st : List StopTime) :
    ∀ (l : List (String × Nat × Nat)) (s : List Int × List Rat),
    finalizeEntries cf st l s =
      l.foldl (fun s2 e => finalizeTrip cf st e.1 e.2.1 e.2.2 s2) s := by
  intro l
  induction l with
  | nil => intro s; rfl
  | cons e l ih => intro s; exact ih _

theorem finalizeEntries_route (cf : String → Int → Rat) (st : List StopTime)
    (r : Route) (s : List Int × List Rat) :
    finalizeEntries cf st (routeTrips r) s =
      (List.range r.num_trips).foldl (fun s2 trip =>
        finalizeTrip cf st (r.trip_ids.getD trip "") (r.trip_range_start trip)
          r.num_stops s2) s := by
  rw [finalizeEntries_eq_foldl]
  unfold routeTrips
  rw [List.foldl_map]

theorem finalizeNetwork_eq_entries (cf : String → Int → Rat) (net : Network)
    (s : List Int × List Rat) :
    finalizeNetwork cf net s = finalizeEntries cf net.stop_times (netTrips net) s := by
  unfold finalizeNetwork netTrips
  generalize net.stop_times = st
  induction net.routes generalizing s with
  | nil => rfl
  | cons r rs ih =>
    rw [List.flatMap_cons, List.foldl_cons]
    rw [finalizeEntries_eq_foldl, List.foldl_append, ← finalizeEntries_eq_foldl,
      ← finalizeEntries_eq_foldl, finalizeEntries_route]
    exact ih _

/-! ### Tiling and pairwise disjointness of the trip entries -/

/-- Two trip entries with disjoint ranges. -/
def EntryDisjoint (e1 e2 : String × Nat × Nat) : Prop :=
  e1.2.1 + e1.2.2 ≤ e2.2.1 ∨ e2.2.1 + e2.2.2 ≤ e1.2.1

/-- The entries tile the array consecutively starting at `off`. -/
def TilingFrom : Nat → List (String × Nat × Nat) → Prop
  | _, [] => True
  | off, e :: l => e.2.1 = off ∧ TilingFrom (off + e.2.2) l

theorem tilingFrom_append :
    ∀ (l1 l2 : List (String × Nat × Nat)) (off : Nat),
    TilingFrom off l1 → TilingFrom (off + (l1.map (fun e => e.2.2)).sum) l2 →
    TilingFrom off (l1 ++ l2) := by
  intro l1
  induction l1 with
  | nil => intro l2 off h1 h2; simpa using h2
  | cons e l ih =>
    intro l2 off h1 h2
    obtain ⟨he, hl⟩ := h1
    refine ⟨he, ?_⟩
    refine ih l2 (off + e.2.2) hl ?_
    simp only [List.map_cons, List.sum_cons] at h2
    have : off + e.2.2 + (List.map (fun e => e.2.2) l).sum =
        off + (e.2.2 + (List.map (fun e => e.2.2) l).sum) := by omega
    rw [this]
    exact h2

theorem tilingFrom_start_le :
    ∀ (l : List (String × Nat × Nat)) (off : Nat), TilingFrom off l →
    ∀ e ∈ l, off ≤ e.2.1 := by
  intro l
  induction l with
  | nil => intro off h e he; simp at he
  | cons e0 l ih =>
    intro off h e he
    obtain ⟨he0, hl⟩ := h
    rcases List.mem_cons.mp he with rfl | he
    · omega
    · have := ih (off + e0.2.2) hl e he
      omega

theorem tilingFrom_pairwise :
    ∀ (l : List (String × Nat × Nat)) (off : Nat), TilingFrom off l →
    l.Pairwise EntryDisjoint := by
  intro l
  induction l with
  | nil => intro off h; exact List.Pairwise.nil
  | cons e0 l ih =>
    intro off h
    obtain ⟨he0, hl⟩ := h
    refine List.pairwise_cons.mpr ⟨?_, ih (off + e0.2.2) hl⟩
    intro e2 he2
    left
    have := tilingFrom_start_le l (off + e0.2.2) hl e2 he2
    omega

theorem list_sum_map_const {α : Type _} (l : List α) (c : Nat) :
    (l.map (fun _ => c)).sum = l.length * c := by
  induction l with
  | nil => simp
  | cons x xs ih =>
    simp only [List.map_cons, List.sum_cons, List.length_cons, ih]
    ring

theorem tilingFrom_range_map (start ns : Nat) (f : Nat → String) :
    ∀ n, TilingFrom start ((List.range n).map (fun t => (f t, start + t * ns, ns))) := by
  intro n
  induction n with
  | zero => exact trivial
  | succ m ih =>
    rw [List.range_succ, List.map_append]
    refine tilingFrom_append _ _ start ih ?_
    have hsum : (((List.range m).map (fun t => (f t, start + t * ns, ns))).map
        (fun e => e.2.2)).sum = m * ns := by
      rw [List.map_map]
      have he : ∀ t ∈ List.range m,
          ((fun (e : String × Nat × Nat) => e.2.2) ∘
            fun t => (f t, start + t * ns, ns)) t = ns := fun t _ => rfl
      rw [List.map_congr_left he, list_sum_map_const, List.length_range]
    rw [hsum]
    exact ⟨by ring, trivial⟩

theorem routeTrips_tiling (r : Route) :
    TilingFrom r.stop_times_start (routeTrips r) := by
  unfold routeTrips Route.trip_range_start
  exact tilingFrom_range_map r.stop_times_start r.num_stops
    (fun t => r.trip_ids.getD t "") r.num_trips

theorem routeTrips_len_sum (r : Route) :
    ((routeTrips r).map (fun e => e.2.2)).sum = r.block_len := by
  unfold routeTrips Route.block_len
  rw [List.map_map]
  have he : ∀ t ∈ List.range r.num_trips,
      ((fun (e : String × Nat × Nat) => e.2.2) ∘
        fun trip => (r.trip_ids.getD trip "", r.trip_range_start trip,
          r.num_stops)) t = r.num_stops := fun t _ => rfl
  rw [List.map_congr_left he, list_sum_map_const, List.length_range]

theorem netTrips_tiling :
    ∀ (rs : List Route) (off : Nat), RoutesLayout off rs →
    TilingFrom off (rs.flatMap routeTrips) := by
  intro rs
  induction rs with
  | nil => intro off h; exact trivial
  | cons r rest ih =>
    intro off h
    obtain ⟨h0, hrest⟩ := h
    rw [List.flatMap_cons]
    refine tilingFrom_append _ _ off (h0 ▸ routeTrips_tiling r) ?_
    rw [routeTrips_len_sum]
    exact ih (off + r.block_len) hrest

theorem netTrips_mem (net : Network) (r t : Nat) (hv : ValidTrip net r t) :
    ((net.routes.getD r default).trip_ids.getD t "",
     tripRangeStart net r t,
     (net.routes.getD r default).num_stops) ∈ netTrips net := by
  obtain ⟨hr, ht⟩ := hv
  unfold netTrips
  refine List.mem_flatMap.mpr ⟨net.routes.getD r default, ?_, ?_⟩
  · rw [List.getD_eq_getElem net.routes default hr]
    exact List.getElem_mem hr
  · unfold routeTrips
    exact List.mem_map.mpr ⟨t, List.mem_range.mpr ht, rfl⟩

/-! ### The finalization fold on a trip's own range and outside of it -/

theorem finalizeEntries_pop_outside (cf : String → Int → Rat) (st : List StopTime) :
    ∀ (l : List (String × Nat × Nat)) (s : List Int × List Rat) (j : Nat),
    (∀ e ∈ l, j ≤ e.2.1 ∨ e.2.1 + e.2.2 ≤ j) →
    ((finalizeEntries cf st l s).1).getD j 0 = s.1.getD j 0 := by
  intro l
  induction l with
  | nil => intro s j h; rfl
  | cons e l ih =>
    intro s j h
    show ((finalizeEntries cf st l (finalizeTrip cf st e.1 e.2.1 e.2.2 s)).1).getD j 0 = _
    rw [ih _ j (fun e2 he2 => h e2 (List.mem_cons_of_mem e he2))]
    exact finalizeTrip_pop_getD_outside cf st e.1 e.2.1 e.2.2 s j
      (h e (List.mem_cons_self e l))

theorem rangeSum_congr (b1 b2 : List Int) (lo : Nat) :
    ∀ i, (∀ j, j ≤ i → b1.getD (lo + j) 0 = b2.getD (lo + j) 0) →
    rangeSum b1 lo i = rangeSum b2 lo i := by
  intro i
  induction i with
  | zero =>
    intro h
    have h2 : b1.getD lo 0 = b2.getD lo 0 := h 0 (Nat.le_refl 0)
    simp only [rangeSum]
    exact h2
  | succ m ih =>
    intro h
    have h2 : b1.getD (lo + m + 1) 0 = b2.getD (lo + m + 1) 0 := h (m + 1) (Nat.le_refl _)
    simp only [rangeSum]
    rw [ih (fun j hj => h j (by omega)), h2]

theorem finalizeEntries_pop_mem (cf : String → Int → Rat) (st : List StopTime) :
    ∀ (l : List (String × Nat × Nat)) (s : List Int × List Rat)
      (tid : String) (t0 len i : Nat),
    (tid, t0, len) ∈ l → l.Pairwise EntryDisjoint →
    t0 + len ≤ s.1.length → i < len →
    ((finalizeEntries cf st l s).1).getD (t0 + i) 0 = rangeSum s.1 t0 i := by
  intro l
  induction l with
  | nil => intro s tid t0 len i hmem; simp at hmem
  | cons e l ih =>
    intro s tid t0 len i hmem hpw hb hi
    show ((finalizeEntries cf st l (finalizeTrip cf st e.1 e.2.1 e.2.2 s)).1).getD
      (t0 + i) 0 = _
    rcases List.mem_cons.mp hmem with he | he
    · subst he
      have hout : ∀ e2 ∈ l, (t0 + i) ≤ e2.2.1 ∨ e2.2.1 + e2.2.2 ≤ (t0 + i) := by
        intro e2 he2
        have hd := (List.pairwise_cons.mp hpw).1 e2 he2
        unfold EntryDisjoint at hd
        rcases hd with hd | hd
        · left; simp only at hd; omega
        · right; simp only at hd; omega
      rw [finalizeEntries_pop_outside cf st l _ (t0 + i) hout]
      exact finalizeTrip_pop_getD_in cf st tid t0 len s hb i hi
    · have hd : EntryDisjoint e (tid, t0, len) := (List.pairwise_cons.mp hpw).1 _ he
      have hlen2 : t0 + len ≤ ((finalizeTrip cf st e.1 e.2.1 e.2.2 s).1).length := by
        rw [(finalizeTrip_length cf st e.1 e.2.1 e.2.2 s).1]
        exact hb
      rw [ih _ tid t0 len i he (List.pairwise_cons.mp hpw).2 hlen2 hi]
      refine rangeSum_congr _ _ t0 i ?_
      intro j hj
      refine finalizeTrip_pop_getD_outside cf st e.1 e.2.1 e.2.2 s (t0 + j) ?_
      unfold EntryDisjoint at hd
      simp only at hd
      rcases hd with hd | hd
      · right; omega
      · left; omega

/-! ### The nonnegative-prefix-sum invariant of the accumulation phase -/

/-- Invariant of the occupancy buffer during accumulation: correct length
and nonnegative per-trip prefix sums. -/
def BufInv (net : Network) (buf : List Int) : Prop :=
  buf.length = net.stop_times.length ∧
  ∀ r t i, ValidTrip net r t → i < (net.routes.getD r default).num_stops →
    0 ≤ rangeSum buf (tripRangeStart net r t) i

theorem bufInv_zero (net : Network) :
    BufInv net (List.replicate net.stop_times.length 0) :=
  ⟨by simp, fun r t i _ _ =>
    Eq.ge (rangeSum_replicate_zero net.stop_times.length (tripRangeStart net r t) i)⟩

theorem bufInv_applyLeg (net : Network) (hwf : net.WF) (leg : Leg) (c : Int)
    (hleg : LegValid net leg) (hc : 0 ≤ c) (buf : List Int) (h : BufInv net buf) :
    BufInv net (applyLeg net c leg buf) := by
  obtain ⟨hlen, hnn⟩ := h
  obtain ⟨hvleg, hba, han⟩ := hleg
  have hbound := tripRange_in_bounds net hwf _ _ hvleg
  have hb : legBoardIdx net leg < buf.length := by
    rw [hlen]
    unfold legBoardIdx
    omega
  have ha : legAlightIdx net leg < buf.length := by
    rw [hlen]
    unfold legAlightIdx
    omega
  have hne : legBoardIdx net leg ≠ legAlightIdx net leg := by
    unfold legBoardIdx legAlightIdx
    omega
  refine ⟨by rw [applyLeg_length]; exact hlen, ?_⟩
  intro r t i hv hi
  rw [rangeSum_applyLeg net c leg buf _ hb ha hne i]
  have h0 := hnn r t i hv hi
  by_cases hsame : leg.trip.route_idx = r ∧ leg.trip.trip_order = t
  · obtain ⟨h1, h2⟩ := hsame
    have e1 : legBoardIdx net leg =
        tripRangeStart net r t + leg.boarded_stop_order := by
      unfold legBoardIdx
      rw [h1, h2]
    have e2 : legAlightIdx net leg =
        tripRangeStart net r t + leg.arrival_stop_order := by
      unfold legAlightIdx
      rw [h1, h2]
    rw [e1, e2]
    split_ifs <;> omega
  · have hd := tripRange_disjoint net hwf leg.trip.route_idx leg.trip.trip_order
      r t hvleg hv hsame
    have hblo : tripRangeStart net leg.trip.route_idx leg.trip.trip_order ≤
        legBoardIdx net leg := by
      unfold legBoardIdx
      omega
    have hbhi : legBoardIdx net leg <
        tripRangeStart net leg.trip.route_idx leg.trip.trip_order +
          (net.routes.getD leg.trip.route_idx default).num_stops := by
      unfold legBoardIdx
      omega
    have halo : tripRangeStart net leg.trip.route_idx leg.trip.trip_order ≤
        legAlightIdx net leg := by
      unfold legAlightIdx
      omega
    have hahi : legAlightIdx net leg <
        tripRangeStart net leg.trip.route_idx leg.trip.trip_order +
          (net.routes.getD leg.trip.route_idx default).num_stops := by
      unfold legAlightIdx
      omega
    rw [if_neg (by omega), if_neg (by omega)]
    omega

theorem bufInv_applyLegs (net : Network) (hwf : net.WF) (c : Int) (hc : 0 ≤ c) :
    ∀ (legs : List Leg) (buf : List Int),
    (∀ leg ∈ legs, LegValid net leg) → BufInv net buf →
    BufInv net (legs.foldl (fun b leg => applyLeg net c leg b) buf) := by
  intro legs
  induction legs with
  | nil => intro buf _ h; exact h
  | cons leg legs ih =>
    intro buf hlegs h
    exact ih _ (fun l hl => hlegs l (List.mem_cons_of_mem leg hl))
      (bufInv_applyLeg net hwf leg c (hlegs leg (List.mem_cons_self leg legs)) hc buf h)

theorem bufInv_processJourney (net : Network) (hwf : net.WF)
    (step : SimulationStep) (i jidx : Nat) (jr : Except JourneyError Journey)
    (c d : Nat) (buf : List Int)
    (hjr : ∀ j, jr = Except.ok j → ∀ leg ∈ j.legs, LegValid net leg)
    (h : BufInv net buf) :
    BufInv net ((processJourney net step i jidx jr c d buf).2) := by
  cases jr with
  | error e => exact h
  | ok j =>
    simp only [processJourney]
    split
    · exact h
    · exact bufInv_applyLegs net hwf (c : Int) (Int.natCast_nonneg c)
        j.legs buf (hjr j rfl) h

theorem bufInv_processJourneys (net : Network) (hwf : net.WF)
    (step : SimulationStep) (i : Nat) :
    ∀ (js : List (Except JourneyError Journey)) (jidx : Nat) (cs ds : List Nat)
      (buf : List Int),
    (∀ jr ∈ js, ∀ j, jr = Except.ok j → ∀ leg ∈ j.legs, LegValid net leg) →
    BufInv net buf →
    BufInv net ((processJourneys net step i jidx js cs ds buf).2) := by
  intro js
  induction js with
  | nil => intro jidx cs ds buf _ h; exact h
  | cons jr js ih =>
    intro jidx cs ds buf hjs h
    cases cs with
    | nil => exact h
    | cons c cs =>
      cases ds with
      | nil => exact h
      | cons d ds =>
        simp only [processJourneys]
        refine ih (jidx + 1) cs ds _ (fun j2 hj2 => hjs j2 (List.mem_cons_of_mem jr hj2)) ?_
        exact bufInv_processJourney net hwf step i jidx jr c d buf
          (hjs jr (List.mem_cons_self jr js)) h

theorem bufInv_processStep (net : Network) (hwf : net.WF) (mlsp : MLSP)
    (bag : Nat) (cc : List Rat) (buf : List Int) (i : Nat) (step : SimulationStep)
    (hmlsp : ∀ res ∈ mlsp step.origin_stop step.departure_time step.dest_stops cc bag,
      ∀ j, res = Except.ok j → ∀ leg ∈ j.legs, LegValid net leg)
    (h : BufInv net buf) :
    BufInv net ((processStep net mlsp bag cc buf i step).2) := by
  unfold processStep
  split
  · exact h
  · exact bufInv_processJourneys net hwf step i _ 0 step.counts step.dest_stops buf
      hmlsp h

theorem bufInv_processSteps (net : Network) (hwf : net.WF) (mlsp : MLSP)
    (bag : Nat) (cc : List Rat)
    (hmlsp : ∀ o dep dests, ∀ res ∈ mlsp o dep dests cc bag,
      ∀ j, res = Except.ok j → ∀ leg ∈ j.legs, LegValid net leg) :
    ∀ (steps : List SimulationStep) (i : Nat) (buf : List Int),
    BufInv net buf → BufInv net ((processSteps net mlsp bag cc i steps buf).2) := by
  intro steps
  induction steps with
  | nil => intro i buf h; exact h
  | cons step rest ih =>
    intro i buf h
    simp only [processSteps]
    refine ih (i + 1) _ ?_
    exact bufInv_processStep net hwf mlsp bag cc buf i step
      (hmlsp step.origin_stop step.departure_time step.dest_stops) h

/-! ### Claim C2: nonnegativity of post-prefix-sum occupancies -/

/-- C2. For a wellformed network and MLSP results whose legs are valid
(in particular `boarded_stop_order < arrival_stop_order`), every
post-prefix-sum occupancy entry of every trip range of the round result is
nonnegative — the negative-occupancy assertion of the finalization loop can
never fire. -/
theorem c2_occupancy_nonneg (net : Network) (steps : List SimulationStep)
    (params : SimulationParams) (cc : Option (List Rat)) (rn : Nat) (mlsp : MLSP)
    (hwf : net.WF)
    (hmlsp : ∀ o d dests cro bag, ∀ res ∈ mlsp o d dests cro bag,
      ∀ j, res = Except.ok j → ∀ leg ∈ j.legs, LegValid net leg)
    (r t i : Nat) (hv : ValidTrip net r t)
    (hi : i < (net.routes.getD r default).num_stops) :
    0 ≤ (run_simulation_round net steps params cc rn mlsp).population_count.getD
      (tripRangeStart net r t + i) 0 := by
  show 0 ≤ ((finalizeNetwork params.cost_fn net
      ((processSteps net mlsp (roundBagSize rn params.bag_size)
        (effectiveCrowdingCost net.stop_times.length cc) 0 steps
        (List.replicate net.stop_times.length 0)).2,
       List.replicate net.stop_times.length 0)).1).getD (tripRangeStart net r t + i) 0
  rw [finalizeNetwork_eq_entries]
  have hinv : BufInv net ((processSteps net mlsp (roundBagSize rn params.bag_size)
      (effectiveCrowdingCost net.stop_times.length cc) 0 steps
      (List.replicate net.stop_times.length 0)).2) :=
    bufInv_processSteps net hwf mlsp (roundBagSize rn params.bag_size)
      (effectiveCrowdingCost net.stop_times.length cc)
      (fun o dep dests => hmlsp o dep dests _ _) steps 0 _ (bufInv_zero net)
  obtain ⟨hlen, hnn⟩ := hinv
  rw [finalizeEntries_pop_mem params.cost_fn net.stop_times (netTrips net) _
    ((net.routes.getD r default).trip_ids.getD t "") (tripRangeStart net r t)
    ((net.routes.getD r default).num_stops) i (netTrips_mem net r t hv)
    (tilingFrom_pairwise (netTrips net) 0 (netTrips_tiling net.routes 0 hwf.1))
    (by simpa [hlen] using tripRange_in_bounds net hwf r t hv) hi]
  exact hnn r t i hv hi

/-- A concrete one-route network for witnesses (Scenario A of the spec). -/
def sampleRoute : Route :=
  { num_trips := 1, num_stops := 5, trip_ids := ["t1"], stop_times_start := 0 }

def sampleNetwork : Network :=
  { routes := [sampleRoute],
    stop_times := [⟨0, 0⟩, ⟨60, 60⟩, ⟨120, 120⟩, ⟨180, 180⟩, ⟨240, 240⟩] }

def sampleLeg : Leg :=
  { trip := ⟨0, 0⟩, boarded_stop_order := 0, arrival_stop_order := 3,
    boarded_time := 0, arrival_time := 180 }

def sampleStep : SimulationStep :=
  { departure_time := 0, origin_stop := 0, dest_stops := [3], counts := [1] }

/-- An MLSP oracle returning the single sample journey for each destination. -/
def sampleMLSP : MLSP := fun _ _ dests _ _ =>
  dests.map (fun _ => Except.ok { legs := [sampleLeg], duration := 180, cost := 0 })

theorem sampleNetwork_wf : sampleNetwork.WF :=
  ⟨⟨rfl, trivial⟩, by decide⟩

theorem sampleMLSP_legs_valid :
    ∀ o d dests cro bag, ∀ res ∈ sampleMLSP o d dests cro bag,
      ∀ j, res = Except.ok j → ∀ leg ∈ j.legs, LegValid sampleNetwork leg := by
  intro o d dests cro bag res hres j hj leg hleg
  obtain ⟨x, -, rfl⟩ := List.mem_map.mp hres
  obtain rfl : _ = j := (Except.ok.inj hj)
  rw [List.mem_singleton.mp hleg]
  exact ⟨⟨by decide, by decide⟩, by decide, by decide⟩

/-- Witness for C2 at a concrete round with one resolved leg. -/
theorem c2_occupancy_nonneg_witness :
    sampleNetwork.WF ∧
    ValidTrip sampleNetwork 0 0 ∧
    0 ≤ (run_simulation_round sampleNetwork [sampleStep] trivialParams none 0
      sampleMLSP).population_count.getD (tripRangeStart sampleNetwork 0 0 + 2) 0 :=
  ⟨sampleNetwork_wf, ⟨by decide, by decide⟩,
    c2_occupancy_nonneg sampleNetwork [sampleStep] trivialParams none 0 sampleMLSP
      sampleNetwork_wf sampleMLSP_legs_valid 0 0 2 ⟨by decide, by decide⟩ (by decide)⟩

/-- Witness for C1 at a concrete leg on the sample network. -/
theorem c1_single_leg_range_code_witness :
    sampleLeg.boarded_stop_order < sampleLeg.arrival_stop_order ∧
    sampleLeg.arrival_stop_order < 5 ∧
    tripRangeStart sampleNetwork sampleLeg.trip.route_idx sampleLeg.trip.trip_order +
      5 ≤ 5 ∧
    ((∀ buf : List Int, buf.length = 5 →
      ((applyLeg sampleNetwork 2 sampleLeg buf).getD
          (legBoardIdx sampleNetwork sampleLeg) 0 =
        buf.getD (legBoardIdx sampleNetwork sampleLeg) 0 + 2 ∧
       (applyLeg sampleNetwork 2 sampleLeg buf).getD
          (legAlightIdx sampleNetwork sampleLeg) 0 =
        buf.getD (legAlightIdx sampleNetwork sampleLeg) 0 - 2 ∧
       ∀ i, i < 5 → i ≠ sampleLeg.boarded_stop_order →
        i ≠ sampleLeg.arrival_stop_order →
        (applyLeg sampleNetwork 2 sampleLeg buf).getD
          (tripRangeStart sampleNetwork sampleLeg.trip.route_idx
            sampleLeg.trip.trip_order + i) 0 =
        buf.getD (tripRangeStart sampleNetwork sampleLeg.trip.route_idx
          sampleLeg.trip.trip_order + i) 0)) ∧
    (∀ i, i < 5 →
      ((finalizeTrip c3wCf sampleNetwork.stop_times "t1"
          (tripRangeStart sampleNetwork sampleLeg.trip.route_idx
            sampleLeg.trip.trip_order)
          5 (applyLeg sampleNetwork 2 sampleLeg (List.replicate 5 0),
             List.replicate 5 (0 : Rat))).1).getD
        (tripRangeStart sampleNetwork sampleLeg.trip.route_idx
          sampleLeg.trip.trip_order + i) 0 =
      if sampleLeg.boarded_stop_order ≤ i ∧ i < sampleLeg.arrival_stop_order
        then 2 else 0)) :=
  ⟨by decide, by decide, by decide,
    c1_single_leg_range_code sampleNetwork sampleLeg 2 5 5 c3wCf
      sampleNetwork.stop_times "t1" (List.replicate 5 0)
      (by decide) (by decide) (by decide)⟩

/-! ### Demand and capacity import (data_import.rs) -/

/-- `DataImportError` (data_import.rs), restricted to the constructors the
importers below produce. -/
inductive DataImportError where
  | NoDataForDate
  | ColumnNotFound (c : String)
  | ColumnWrongFormat (c : String) (want : String)
  | NoData
deriving DecidableEq, Inhabited, Repr

/-- An arrow `Time64` column of time-of-day values, at nanosecond or
microsecond precision (values are nonnegative times since day start). -/
inductive ArrowTimeColumn where
  | time64Nanosecond (vals : List Nat)
  | time64Microsecond (vals : List Nat)
deriving DecidableEq, Repr

/-- `column.as_primitive_opt::<Time64NanosecondType>()` (data_import.rs line
103): a downcast that succeeds only on the nanosecond-precision variant. -/
def as_primitive_time64ns : ArrowTimeColumn → Option (List Nat)
  | .time64Nanosecond vals => some vals
  | _ => none

/-- The `Departure_Time` column extraction (data_import.rs lines 101-104):
a non-nanosecond column aborts with `ColumnWrongFormat`. -/
def readDepartureTimesColumn (col : ArrowTimeColumn) :
    Except DataImportError (List Nat) :=
  match as_primitive_time64ns col with
  | some vals => .ok vals
  | none => .error (.ColumnWrongFormat "Departure_Time" "Time64Nanosecond")

/-- Row departure time (data_import.rs line 122): whole seconds since day
start, by integer division of the nanosecond value. -/
def departureTimeFromRow (vals : List Nat) (i : Nat) : Nat :=
  vals.getD i 0 / 1000000000

/-- C7 counterexample: a microsecond-precision `Departure_Time` column
aborts ingestion with a format error, refuting the claim that either
precision is accepted. -/
theorem c7_microseconds_rejected_counterexample :
    readDepartureTimesColumn (.time64Microsecond [32400000000]) =
      .error (.ColumnWrongFormat "Departure_Time" "Time64Nanosecond") := by
  decide

/-- C7 (amended). The importer accepts only nanosecond-precision
`Departure_Time` columns; rows then get `departure_time` in whole seconds
since day start (the floor of value / 10^9); a microsecond-precision column
aborts with `ColumnWrongFormat("Departure_Time", "Time64Nanosecond")`. -/
theorem c7_departure_time_import (vals : List Nat) (i : Nat) :
    readDepartureTimesColumn (.time64Nanosecond vals) = .ok vals ∧
    readDepartureTimesColumn (.time64Microsecond vals) =
      .error (.ColumnWrongFormat "Departure_Time" "Time64Nanosecond") ∧
    departureTimeFromRow vals i * 1000000000 ≤ vals.getD i 0 ∧
    vals.getD i 0 < (departureTimeFromRow vals i + 1) * 1000000000 := by
  refine ⟨rfl, rfl, ?_, ?_⟩
  · exact Nat.div_mul_le_self _ _
  · unfold departureTimeFromRow
    omega

/-- `str::parse::<i32>` of a capacity field: `String.toInt?` plus the `i32`
range check. -/
def parsePopulationCount (s : String) : Option Int :=
  match s.toInt? with
  | none => none
  | some x => if -(2 ^ 31) ≤ x ∧ x < 2 ^ 31 then some x else none

/-- One CSV data record of `import_trip_capacities` (data_import.rs lines
152-158): a record-level error, a missing field, or an unparseable integer
yields `none`. -/
def parseCapacityRecord (record : Except Unit (List String)) :
    Option (String × TripCapacity) :=
  (record.toOption).bind fun fields =>
  (fields.get? 0).bind fun trip_id =>
  (fields.get? 1).bind fun s1 =>
  (parsePopulationCount s1).bind fun seated =>
  (fields.get? 2).bind fun s2 =>
  (parsePopulationCount s2).bind fun standing =>
  some (trip_id, { seated := seated, standing := standing })

/-- `import_trip_capacities` (data_import.rs lines 138-166): header checks,
then a `filter_map` over the data records, and `NoData` exactly when no
record parsed. -/
def import_trip_capacities (headers : Except Unit (List String))
    (records : List (Except Unit (List String))) :
    Except DataImportError (List (String × TripCapacity)) :=
  match headers with
  | .error _ => .error (.ColumnNotFound "header")
  | .ok hs =>
    if hs.get? 0 ≠ some "trip_id" then .error (.ColumnNotFound "trip_id")
    else if hs.get? 1 ≠ some "seated" then .error (.ColumnNotFound "seated")
    else if hs.get? 2 ≠ some "standing" then .error (.ColumnNotFound "standing")
    else if (records.filterMap parseCapacityRecord).isEmpty then .error .NoData
    else .ok (records.filterMap parseCapacityRecord)

theorem filterMap_filter_isSome {α β : Type _} (f : α → Option β) (l : List α) :
    (l.filter (fun a => (f a).isSome)).filterMap f = l.filterMap f := by
  induction l with
  | nil => rfl
  | cons a l ih =>
    cases hfa : f a with
    | none =>
      rw [List.filter_cons_of_neg (by simp [hfa])]
      simp [List.filterMap_cons, hfa, ih]
    | some b =>
      rw [List.filter_cons_of_pos (by simp [hfa])]
      simp [List.filterMap_cons, hfa, ih]

/-- C9. With a valid header, every data record that fails to parse is
silently skipped (dropping the malformed records does not change the
result), and `NoData` is returned exactly when zero records parse — even if
the file contained (malformed) rows. -/
theorem c9_malformed_rows_skipped (hs : List String)
    (records : List (Except Unit (List String)))
    (h0 : hs.get? 0 = some "trip_id") (h1 : hs.get? 1 = some "seated")
    (h2 : hs.get? 2 = some "standing") :
    (import_trip_capacities (.ok hs) records = .error .NoData ↔
      ∀ r ∈ records, parseCapacityRecord r = none) ∧
    import_trip_capacities (.ok hs) records =
      import_trip_capacities (.ok hs)
        (records.filter (fun r => (parseCapacityRecord r).isSome)) := by
  have hflt := filterMap_filter_isSome parseCapacityRecord records
  have hiff : ∀ (X : List (String × TripCapacity)) (b : Bool),
      ((if b then (Except.error DataImportError.NoData :
          Except DataImportError (List (String × TripCapacity))) else .ok X) =
        .error .NoData) ↔ b = true := by
    intro X b
    cases b <;> simp
  simp only [import_trip_capacities, h0, h1, h2, hflt,
    if_neg (show ¬(some "trip_id" ≠ some "trip_id") by simp),
    if_neg (show ¬(some "seated" ≠ some "seated") by simp),
    if_neg (show ¬(some "standing" ≠ some "standing") by simp)]
  refine ⟨?_, trivial⟩
  rw [hiff, List.isEmpty_iff, List.filterMap_eq_nil_iff]

/-- Witness for C9 at a concrete file with one good and two malformed rows. -/
theorem c9_malformed_rows_skipped_witness :
    (["trip_id", "seated", "standing"] : List String).get? 0 = some "trip_id" ∧
    (["trip_id", "seated", "standing"] : List String).get? 1 = some "seated" ∧
    (["trip_id", "seated", "standing"] : List String).get? 2 = some "standing" ∧
    ((import_trip_capacities (.ok ["trip_id", "seated", "standing"])
        [.ok ["t1", "100", "80"], .error (), .ok ["t2", "x", "5"]] =
          .error .NoData ↔
      ∀ r ∈ ([.ok ["t1", "100", "80"], .error (), .ok ["t2", "x", "5"]] :
          List (Except Unit (List String))), parseCapacityRecord r = none) ∧
     import_trip_capacities (.ok ["trip_id", "seated", "standing"])
        [.ok ["t1", "100", "80"], .error (), .ok ["t2", "x", "5"]] =
      import_trip_capacities (.ok ["trip_id", "seated", "standing"])
        (([.ok ["t1", "100", "80"], .error (), .ok ["t2", "x", "5"]] :
          List (Except Unit (List String))).filter
          (fun r => (parseCapacityRecord r).isSome))) :=
  ⟨rfl, rfl, rfl,
    c9_malformed_rows_skipped ["trip_id", "seated", "standing"]
      [.ok ["t1", "100", "80"], .error (), .ok ["t2", "x", "5"]] rfl rfl rfl⟩
